import Mathlib

/-!
# Verification of the shelf grid inference and planogram compliance core

Shallow embedding of the algorithmic core of the Retail-Image-Recognition-POC
repository: the product-name normalizer, the two `check_compliance` variants
(`app/services/planogram_service.py` and `API For Image/planogram_service.py`),
the close-line filter, the dynamic grid detection with its aspect-ratio
fallback, and the coordinate mapper.  Image geometry enters the embedding at
the point where the OpenCV contour pass has produced candidate separator
positions; everything downstream of that point is translated directly from the
Python source.
-/

/-- A single planogram section (`PlanogramSection` in `models`). -/
structure PlanogramSection where
  column : Int
  expected_product : String
  allowed_variants : List String
deriving DecidableEq, Repr

/-- A planogram shelf: a row index together with its sections. -/
structure PlanogramShelf where
  row : Int
  sections : List PlanogramSection
deriving DecidableEq, Repr

/-- A planogram: a name and a list of shelves. -/
structure Planogram where
  name : String
  shelves : List PlanogramShelf
deriving DecidableEq, Repr

/-- One detected product handed to `check_compliance`:
a dict with keys `label`, `row`, `column`, `quantity`. -/
structure Detection where
  label : String
  row : Int
  column : Int
  quantity : Int
deriving DecidableEq, Repr

/-- An entry of the `product_grid` dictionary built by `check_compliance`. -/
structure GridEntry where
  product : String
  quantity : Int
deriving DecidableEq, Repr

/-- A compliance issue (`ComplianceIssue` in `models`). -/
structure ComplianceIssue where
  row : Int
  column : Int
  issue_type : String
  expected : String
  found : String
  severity : String
deriving DecidableEq, Repr

/-- The result of a compliance check (`ComplianceResult` in `models`).
The Python `float` score is embedded as an exact rational. -/
structure ComplianceResult where
  is_compliant : Bool
  compliance_score : ℚ
  issues : List ComplianceIssue
  correct_placements : Nat
  total_positions : Nat
  planogram_name : String
deriving DecidableEq, Repr

/-- ASCII lowercase of one character, as Python `str.lower` acts on ASCII. -/
def lowerChar (c : Char) : Char :=
  if 'A' ≤ c ∧ c ≤ 'Z' then Char.ofNat (c.toNat + 32) else c

/-- `s.lower()` (ASCII range; product labels in this system are ASCII). -/
def lowerStr (s : String) : String := ⟨s.data.map lowerChar⟩

/-- Whitespace recognized by `str.strip()` (the ASCII whitespace characters). -/
def isSpaceChar (c : Char) : Bool :=
  c = ' ' ∨ c = '\t' ∨ c = '\n' ∨ c = '\r'

/-- `s.strip()`: drop leading and trailing whitespace. -/
def stripStr (s : String) : String :=
  ⟨((s.data.dropWhile isSpaceChar).reverse.dropWhile isSpaceChar).reverse⟩

/-- `s.replace(old, new)` for a single-character pattern. -/
def replaceChar (s : String) (old new : Char) : String :=
  ⟨s.data.map (fun c => if c = old then new else c)⟩

/-- The labels recognized as explicit empty-shelf detections
(`['empty_shelf', 'empty', 'empty_space', 'emptyspace']`). -/
def empty_labels : List String := ["empty_shelf", "empty", "empty_space", "emptyspace"]

/-- State built from the detection list: the `product_grid` dict (as an
association list over `(row, column)` keys) and the `empty_spaces` set
(as a list whose membership is the set). -/
structure GridState where
  product_grid : List ((Int × Int) × GridEntry)
  empty_spaces : List (Int × Int)
deriving DecidableEq, Repr

/-- Dictionary lookup `product_grid.get(grid_key)`. -/
def lookupGrid (g : List ((Int × Int) × GridEntry)) (k : Int × Int) : Option GridEntry :=
  (g.find? (fun e => e.1 = k)).map (fun e => e.2)

/-- In-place update `product_grid[grid_key]['quantity'] += q`. -/
def updateGrid (g : List ((Int × Int) × GridEntry)) (k : Int × Int) (q : Int) :
    List ((Int × Int) × GridEntry) :=
  g.map (fun e => if e.1 = k then (e.1, ⟨e.2.product, e.2.quantity + q⟩) else e)

/-- One iteration of the detection-processing loop of `check_compliance`:
empty-labelled detections go to `empty_spaces`, others are inserted into
`product_grid`, summing quantities on key collision. -/
def addDetection (st : GridState) (d : Detection) : GridState :=
  let key := (d.row, d.column)
  if lowerStr d.label ∈ empty_labels then
    { st with empty_spaces := key :: st.empty_spaces }
  else
    match lookupGrid st.product_grid key with
    | some _ => { st with product_grid := updateGrid st.product_grid key d.quantity }
    | none => { st with product_grid := (key, ⟨d.label, d.quantity⟩) :: st.product_grid }

/-- The detection-processing loop of `check_compliance`. -/
def buildGrid (dets : List Detection) : GridState :=
  dets.foldl addDetection ⟨[], []⟩

/-- Per-section classification of the `image-recognition-api` variant of
`check_compliance` (`app/services/planogram_service.py`): returns the issue
the section produces, or `none` when the placement is correct.  Product
comparison is plain case-insensitive equality against the expected product
and the allowed variants; `undetected` has severity `medium` there. -/
def processSection (st : GridState) (shelfRow : Int) (s : PlanogramSection) :
    Option ComplianceIssue :=
  let shelf_key := "Shelf " ++ toString shelfRow
  let key := (shelfRow, s.column)
  if key ∈ st.empty_spaces then
    some ⟨shelfRow, s.column, "out_of_stock",
      shelf_key ++ ": " ++ s.expected_product,
      "Found empty space where " ++ s.expected_product ++
        " should be and needs to be restocked", "high"⟩
  else
    match lookupGrid st.product_grid key with
    | none =>
      some ⟨shelfRow, s.column, "undetected",
        shelf_key ++ ": " ++ s.expected_product,
        "Unable to detect product in this position", "medium"⟩
    | some d =>
      if lowerStr d.product = lowerStr s.expected_product
          ∨ s.allowed_variants.any (fun v => lowerStr d.product = lowerStr v) then
        none
      else
        some ⟨shelfRow, s.column, "wrong_product",
          shelf_key ++ ": " ++ s.expected_product,
          "Found " ++ d.product ++ " where " ++ s.expected_product ++ " should be",
          "high"⟩

/-- The `(shelf.row, section)` pairs visited by the nested loops of
`check_compliance`, in visit order. -/
def sectionPairs (p : Planogram) : List (Int × PlanogramSection) :=
  p.shelves.flatMap (fun sh => sh.sections.map (fun s => (sh.row, s)))

/-- `total_positions = sum(len(shelf.sections) for shelf in planogram.shelves)`. -/
def totalPositions (p : Planogram) : Nat :=
  (p.shelves.map (fun sh => sh.sections.length)).sum

/-- `check_compliance` of `app/services/planogram_service.py`:
build the grid state, classify every declared position, and score. -/
def check_compliance (p : Planogram) (dets : List Detection) : ComplianceResult :=
  let st := buildGrid dets
  let pairs := sectionPairs p
  let issues := pairs.filterMap (fun pr => processSection st pr.1 pr.2)
  let correct := (pairs.filter (fun pr => (processSection st pr.1 pr.2).isNone)).length
  let total := totalPositions p
  { is_compliant := issues.isEmpty
    compliance_score := if total > 0 then (correct : ℚ) / (total : ℚ) * 100 else 0
    issues := issues
    correct_placements := correct
    total_positions := total
    planogram_name := p.name }

example : (check_compliance
    ⟨"P", [⟨0, [⟨0, "Coca-Cola", []⟩]⟩]⟩
    [⟨"Coca-Cola", 0, 0, 1⟩]).correct_placements = 1 := by decide

example : (check_compliance
    ⟨"P", [⟨0, [⟨0, "Coca-Cola", []⟩]⟩]⟩
    [⟨"Sprite", 0, 0, 1⟩]).issues.map (fun i => i.issue_type) = ["wrong_product"] := by decide

example : (check_compliance
    ⟨"P", [⟨0, [⟨0, "Coca-Cola", []⟩]⟩]⟩
    [⟨"empty_shelf", 0, 0, 1⟩]).issues.map (fun i => i.issue_type) = ["out_of_stock"] := by
  decide

example : (check_compliance
    ⟨"P", [⟨0, [⟨0, "Coca-Cola", []⟩]⟩]⟩
    []).issues.map (fun i => i.issue_type) = ["undetected"] := by decide

/-- `_normalize_product_name` of `API For Image/planogram_service.py`:
lowercase, strip, replace hyphen and underscore by space, then fold the
known synonym sets; empty input maps to `"empty"`. -/
def normalize_product_name (name : String) : String :=
  if name = "" then "empty"
  else
    let normalized := replaceChar (replaceChar (stripStr (lowerStr name)) '-' ' ') '_' ' '
    if normalized ∈ ["coca cola", "coke", "coca-cola", "cocacola"] then "coca cola"
    else if normalized ∈ ["empty shelf", "empty space", "empty", "emptyspace"] then "empty"
    else normalized

example : normalize_product_name "Coca-Cola" = "coca cola" := by decide
example : normalize_product_name "  Coke " = "coca cola" := by decide
example : normalize_product_name "" = "empty" := by decide
example : normalize_product_name "EMPTY_SHELF" = "empty" := by decide
example : normalize_product_name "Sprite" = "sprite" := by decide

/-- The loop state of the `API For Image` variant of `check_compliance`:
issues, `correct_placements`, `total_checked_positions` and `total_positions`. -/
structure V2State where
  issues : List ComplianceIssue
  correct_placements : Nat
  total_checked_positions : Nat
  total_positions : Nat
deriving DecidableEq, Repr

/-- The product-match test of the `API For Image` variant: normalized
detected name against normalized expected product, then against each
normalized allowed variant. -/
def v2ProductMatch (detected : String) (s : PlanogramSection) : Bool :=
  normalize_product_name detected = normalize_product_name s.expected_product
    ∨ s.allowed_variants.any
        (fun v => normalize_product_name v = normalize_product_name detected)

/-- One section iteration of the `API For Image` variant of
`check_compliance`: `total_positions` is incremented at loop entry and
`total_checked_positions` is incremented separately inside each of the
three branches, mirroring the source. -/
def v2Step (st : GridState) (shelfRow : Int) (acc : V2State) (s : PlanogramSection) :
    V2State :=
  let acc := { acc with total_positions := acc.total_positions + 1 }
  let shelf_key := "Shelf " ++ toString shelfRow
  let key := (shelfRow, s.column)
  if key ∈ st.empty_spaces then
    { acc with
      total_checked_positions := acc.total_checked_positions + 1
      issues := acc.issues ++ [⟨shelfRow, s.column, "out_of_stock",
        shelf_key ++ ": " ++ s.expected_product,
        "Found empty space where " ++ s.expected_product ++
          " should be and needs to be restocked", "high"⟩] }
  else
    match lookupGrid st.product_grid key with
    | none =>
      { acc with
        total_checked_positions := acc.total_checked_positions + 1
        issues := acc.issues ++ [⟨shelfRow, s.column, "undetected",
          shelf_key ++ ": " ++ s.expected_product,
          "No product detected where " ++ s.expected_product ++
            " should be and needs to be restocked", "high"⟩] }
    | some d =>
      let acc := { acc with total_checked_positions := acc.total_checked_positions + 1 }
      if v2ProductMatch d.product s then
        { acc with correct_placements := acc.correct_placements + 1 }
      else
        { acc with issues := acc.issues ++ [⟨shelfRow, s.column, "wrong_product",
          shelf_key ++ ": " ++ s.expected_product,
          "Found " ++ d.product ++ " where " ++ s.expected_product ++ " should be",
          "high"⟩] }

/-- The nested loops of the `API For Image` variant of `check_compliance`. -/
def v2Loop (p : Planogram) (dets : List Detection) : V2State :=
  let st := buildGrid dets
  (sectionPairs p).foldl (fun acc pr => v2Step st pr.1 acc pr.2) ⟨[], 0, 0, 0⟩

/-- `check_compliance` of `API For Image/planogram_service.py`: the score
divides by `total_checked_positions` (0 when that count is 0). -/
def check_compliance_v2 (p : Planogram) (dets : List Detection) : ComplianceResult :=
  let fin := v2Loop p dets
  { is_compliant := fin.issues.isEmpty
    compliance_score :=
      if fin.total_checked_positions > 0 then
        (fin.correct_placements : ℚ) / (fin.total_checked_positions : ℚ) * 100
      else 0
    issues := fin.issues
    correct_placements := fin.correct_placements
    total_positions := fin.total_positions
    planogram_name := p.name }

example : (check_compliance_v2
    ⟨"P", [⟨0, [⟨0, "Coca-Cola", []⟩]⟩]⟩
    [⟨"coke", 0, 0, 1⟩]).correct_placements = 1 := by decide

example : (check_compliance_v2
    ⟨"P", [⟨0, [⟨0, "Coca-Cola", []⟩]⟩]⟩
    [⟨"Sprite", 0, 0, 1⟩]).issues.map (fun i => i.issue_type) = ["wrong_product"] := by decide

/-- Insert into a strictly sorted list, skipping duplicates:
the building block for Python's `sorted(set(line_list))`. -/
def insortND (x : Nat) : List Nat → List Nat
  | [] => [x]
  | y :: ys =>
    if x < y then x :: y :: ys
    else if x = y then y :: ys
    else y :: insortND x ys

/-- `sorted(set(line_list))`: the strictly increasing enumeration of the
values occurring in the list. -/
def dedupSort (l : List Nat) : List Nat := l.foldr insortND []

example : dedupSort [5, 1, 5, 3, 1] = [1, 3, 5] := by decide

/-- The inner loop of `filter_close_lines`: walk the remaining candidates,
keeping a candidate exactly when it is at least `min_distance` above the
most recently kept line. -/
def fclAux (min_distance : ℚ) : Nat → List Nat → List Nat
  | _, [] => []
  | last, x :: xs =>
    if (x : ℚ) - (last : ℚ) ≥ min_distance then x :: fclAux min_distance x xs
    else fclAux min_distance last xs

/-- `filter_close_lines` as written in `app/services/image.py` (and in the
nested helpers of `image_service.py` and `main.py`'s `detect_shelf_layout`):
the first kept line is the FIRST element of the list as given, and the scan
then runs over `sorted(lines)[1:]`. -/
def filter_close_lines (lines : List Nat) (min_distance : ℚ) : List Nat :=
  match lines with
  | [] => []
  | x :: _ => x :: fclAux min_distance x (dedupSort lines).tail

/-- `filter_close_lines` as called in `main.py`'s `/detect-grid` endpoint,
where the candidate list has already been deduplicated and sorted by the
caller and the scan runs over `lines[1:]`. -/
def filter_close_lines_presorted (lines : List Nat) (min_distance : ℚ) : List Nat :=
  match lines with
  | [] => []
  | x :: xs => x :: fclAux min_distance x xs

/-- The `/detect-grid` pipeline segment of `main.py`: `sorted(set(...))`
followed by the greedy close-line filter. -/
def dedupSortThenFilter (lines : List Nat) (min_distance : ℚ) : List Nat :=
  filter_close_lines_presorted (dedupSort lines) min_distance

example : filter_close_lines [100, 0] 50 = [100] := by
  norm_num [filter_close_lines, fclAux, dedupSort, insortND]
example : dedupSortThenFilter [100, 0] 50 = [0, 100] := by
  norm_num [dedupSortThenFilter, filter_close_lines_presorted, fclAux, dedupSort, insortND]

/-- `detect_dynamic_grid` of `_detect_shelf_layout`
(`app/services/image_service.py`), from the point where the contour pass
has produced the raw separator candidates: filter close lines, pin the
image borders, deduplicate and sort, and validate the row/column counts.
`Except.error` models the `raise ValueError`. -/
def detect_dynamic_grid (width height : Nat)
    (shelf_separators product_separators : List Nat) :
    Except String (Nat × Nat × List Nat × List Nat) :=
  let ss := filter_close_lines shelf_separators ((height : ℚ) * 15 / 100)
  let ps := filter_close_lines product_separators ((width : ℚ) * 8 / 100)
  let h_lines := dedupSort (0 :: (ss ++ [height]))
  let v_lines := dedupSort (0 :: (ps ++ [width]))
  let rows := h_lines.length - 1
  let cols := v_lines.length - 1
  if rows > 6 ∨ cols > 8 ∨ rows < 1 ∨ cols < 1
      ∨ (rows = 1 ∧ cols ≤ 2) ∨ (cols = 1 ∧ rows ≤ 2) then
    Except.error "Grid detection failed validation"
  else
    Except.ok (rows, cols, h_lines, v_lines)

/-- The aspect-ratio fallback table: `(num_rows, num_cols)` for each of the
five aspect bands.  `width / height > c` on Python floats is embedded as the
exact rational comparison; `int(width / 150)` is the floor division. -/
def fallback_dims (width height : Nat) : Nat × Nat :=
  if 2 * width > 5 * height then
    (1, min 6 (max 3 (width / 150)))
  else if 5 * width > 9 * height then
    (2, min 6 (max 3 (width / 120)))
  else if 5 * width > 6 * height then
    ((if height < 500 then 2 else 3), min 5 (max 3 (width / 100)))
  else if 5 * width > 4 * height then
    (3, min 4 (max 2 (width / 150)))
  else
    (min 4 (max 3 (height / 150)), min 3 (max 2 (width / 200)))

/-- `_detect_shelf_layout` grid inference: try `detect_dynamic_grid`, and on
failure use the aspect-ratio fallback with evenly spaced boundaries
`h_lines[i] = int(i * height / num_rows)` (and likewise for columns).
Returns `(num_rows, num_cols, h_lines, v_lines)`.  The function is total:
the `raise` inside the primary path is recovered locally. -/
def detect_shelf_layout (width height : Nat)
    (shelf_separators product_separators : List Nat) :
    Nat × Nat × List Nat × List Nat :=
  match detect_dynamic_grid width height shelf_separators product_separators with
  | Except.ok r => r
  | Except.error _ =>
    let d := fallback_dims width height
    (d.1, d.2,
      (List.range (d.1 + 1)).map (fun i => i * height / d.1),
      (List.range (d.2 + 1)).map (fun i => i * width / d.2))

example : detect_shelf_layout 1 1 [] [] = (3, 2, [0, 0, 0, 1], [0, 0, 1]) := by decide
example : detect_shelf_layout 1200 300 [] [] =
    (1, 6, [0, 300], [0, 200, 400, 600, 800, 1000, 1200]) := by decide
example : detect_dynamic_grid 600 600 [] [200, 400] =
    Except.ok (1, 3, [0, 600], [0, 200, 400, 600]) := by
  norm_num [detect_dynamic_grid, filter_close_lines, fclAux, dedupSort, insortND]

/-- The row-assignment scan of `assign_coordinates`: the index of the first
boundary (among `h_lines[1:]`) that the center does not exceed, `none` when
the loop finishes without a break. -/
def firstLE (c : Int) : List Int → Option Nat
  | [] => none
  | b :: bs => if c ≤ b then some 0 else (firstLE c bs).map (fun i => i + 1)

/-- `assign_coordinates` (`app/services/image_service.py` /
`app/services/image.py`): scan `h_lines[1:]` for the row, `v_lines[1:]` for
the column, default to the last cell when no boundary matches, and clamp
into `[0, rows-1] x [0, cols-1]`. -/
def assign_coordinates (h_lines v_lines : List Int) (num_rows num_cols : Nat)
    (center_x center_y : Int) : Nat × Nat :=
  let row := match firstLE center_y h_lines.tail with
    | some i => i
    | none => num_rows - 1
  let column := match firstLE center_x v_lines.tail with
    | some i => i
    | none => num_cols - 1
  (min (num_rows - 1) row, min (num_cols - 1) column)

example : assign_coordinates [0, 100, 200] [0, 50, 100] 2 2 0 0 = (0, 0) := by decide
example : assign_coordinates [0, 100, 200] [0, 50, 100] 2 2 100 200 = (1, 1) := by decide
example : assign_coordinates [0, 100, 200] [0, 50, 100] 2 2 (-5) 300 = (1, 0) := by decide

section ComplianceLemmas

/-- Each section iteration of the `API For Image` variant increments both
`total_positions` and `total_checked_positions` by exactly one, on every
branch. -/
lemma v2Step_counts (st : GridState) (r : Int) (acc : V2State) (s : PlanogramSection) :
    (v2Step st r acc s).total_checked_positions = acc.total_checked_positions + 1 ∧
    (v2Step st r acc s).total_positions = acc.total_positions + 1 := by
  unfold v2Step
  dsimp only
  split
  · exact ⟨rfl, rfl⟩
  · split
    · exact ⟨rfl, rfl⟩
    · split <;> exact ⟨rfl, rfl⟩

lemma v2_fold_counts (st : GridState) (pairs : List (Int × PlanogramSection))
    (acc : V2State) :
    (pairs.foldl (fun a pr => v2Step st pr.1 a pr.2) acc).total_checked_positions
        = acc.total_checked_positions + pairs.length ∧
    (pairs.foldl (fun a pr => v2Step st pr.1 a pr.2) acc).total_positions
        = acc.total_positions + pairs.length := by
  induction pairs generalizing acc with
  | nil => simp
  | cons pr rest ih =>
    simp only [List.foldl_cons, List.length_cons]
    obtain ⟨ih1, ih2⟩ := ih (v2Step st pr.1 acc pr.2)
    obtain ⟨h1, h2⟩ := v2Step_counts st pr.1 acc pr.2
    constructor
    · rw [ih1, h1]; omega
    · rw [ih2, h2]; omega

lemma sectionPairs_length (p : Planogram) :
    (sectionPairs p).length = totalPositions p := by
  simp [sectionPairs, totalPositions, Function.comp_def]

lemma v2Loop_counts (p : Planogram) (dets : List Detection) :
    (v2Loop p dets).total_checked_positions = totalPositions p ∧
    (v2Loop p dets).total_positions = totalPositions p := by
  unfold v2Loop
  obtain ⟨h1, h2⟩ := v2_fold_counts (buildGrid dets) (sectionPairs p) ⟨[], 0, 0, 0⟩
  rw [sectionPairs_length] at h1 h2
  exact ⟨by simpa using h1, by simpa using h2⟩

/-- Every element of a list is classified either into the `filterMap`
output or counted by the `isNone` filter. -/
lemma filterMap_add_isNone_length {α β : Type} (f : α → Option β) (l : List α) :
    (l.filterMap f).length + (l.filter (fun x => (f x).isNone)).length = l.length := by
  induction l with
  | nil => simp
  | cons x xs ih =>
    cases h : f x <;>
      simp [List.filterMap_cons, List.filter_cons, h, ← ih] <;> omega

/-- In the `image-recognition-api` variant, issues and correct placements
partition the declared positions. -/
lemma check_compliance_partition (p : Planogram) (dets : List Detection) :
    (check_compliance p dets).issues.length
      + (check_compliance p dets).correct_placements = totalPositions p := by
  unfold check_compliance
  dsimp only
  rw [← sectionPairs_length p]
  exact filterMap_add_isNone_length _ _

end ComplianceLemmas

/-- The score of the `image-recognition-api` variant, written with the
division by the planogram-declared position count. -/
lemma check_compliance_score_eq (p : Planogram) (dets : List Detection) :
    (check_compliance p dets).compliance_score =
      if totalPositions p = 0 then 0
      else 100 * ((check_compliance p dets).correct_placements : ℚ) / (totalPositions p : ℚ) := by
  rcases Nat.eq_zero_or_pos (totalPositions p) with h | h
  · simp [check_compliance, h]
  · simp only [check_compliance]
    rw [if_pos h, if_neg (Nat.pos_iff_ne_zero.mp h)]
    ring

/-- C1: for every planogram and detection list, `check_compliance` (both
variants) returns `compliance_score = 100 * correct_placements /
total_positions` where `total_positions` is the number of declared
`(shelf, section)` pairs, returns score `0` when `total_positions = 0`,
and `is_compliant` holds exactly when the issues list is empty. -/
theorem C1_score_formula_and_compliance_iff (p : Planogram) (dets : List Detection) :
    ((check_compliance p dets).compliance_score =
      if totalPositions p = 0 then 0
      else 100 * ((check_compliance p dets).correct_placements : ℚ) / (totalPositions p : ℚ))
    ∧ ((check_compliance p dets).is_compliant = true ↔ (check_compliance p dets).issues = [])
    ∧ ((check_compliance_v2 p dets).compliance_score =
      if totalPositions p = 0 then 0
      else 100 * ((check_compliance_v2 p dets).correct_placements : ℚ) / (totalPositions p : ℚ))
    ∧ ((check_compliance_v2 p dets).is_compliant = true
        ↔ (check_compliance_v2 p dets).issues = []) := by
  refine ⟨check_compliance_score_eq p dets, ?_, ?_, ?_⟩
  · show List.isEmpty _ = true ↔ _
    exact List.isEmpty_iff
  · simp only [check_compliance_v2]
    rw [(v2Loop_counts p dets).1]
    rcases Nat.eq_zero_or_pos (totalPositions p) with h | h
    · simp [h]
    · rw [if_pos h, if_neg (Nat.pos_iff_ne_zero.mp h)]
      ring
  · show List.isEmpty _ = true ↔ _
    exact List.isEmpty_iff

/-- C10: in the `API For Image` variant of `check_compliance`, every
section increments `total_checked_positions` exactly once on each of its
three branches, so at return it equals `total_positions`; consequently the
returned `compliance_score` satisfies the same scoring formula as the
variant that divides by `total_positions` directly:
`100 * correct_placements / total_positions`, and `0` when
`total_positions = 0`. -/
theorem C10_total_checked_equals_total (p : Planogram) (dets : List Detection) :
    ((v2Loop p dets).total_checked_positions = (v2Loop p dets).total_positions)
    ∧ ((v2Loop p dets).total_positions = totalPositions p)
    ∧ ((check_compliance_v2 p dets).compliance_score =
        if (check_compliance_v2 p dets).total_positions > 0 then
          ((check_compliance_v2 p dets).correct_placements : ℚ)
            / ((check_compliance_v2 p dets).total_positions : ℚ) * 100
        else 0) := by
  obtain ⟨h1, h2⟩ := v2Loop_counts p dets
  refine ⟨h1.trans h2.symm, h2, ?_⟩
  simp only [check_compliance_v2]
  rw [h1, h2]

/-- C4: for every planogram with at least one declared position and every
detection list, `check_compliance` (the `image-recognition-api` variant)
returns `compliance_score = 100` exactly when its issues list is empty. -/
theorem C4_full_score_iff_no_issues (p : Planogram) (dets : List Detection)
    (h : 0 < totalPositions p) :
    ((check_compliance p dets).compliance_score = 100
      ↔ (check_compliance p dets).issues = []) := by
  have hpart := check_compliance_partition p dets
  have ht : ((totalPositions p : ℚ)) ≠ 0 := Nat.cast_ne_zero.mpr (Nat.pos_iff_ne_zero.mp h)
  rw [check_compliance_score_eq p dets, if_neg (Nat.pos_iff_ne_zero.mp h)]
  constructor
  · intro hs
    have hc : (check_compliance p dets).correct_placements = totalPositions p := by
      field_simp at hs
      exact_mod_cast hs
    have hlen : (check_compliance p dets).issues.length = 0 := by omega
    exact List.length_eq_zero.mp hlen
  · intro hi
    have h0 : (check_compliance p dets).issues.length = 0 := by rw [hi]; rfl
    have hc : (check_compliance p dets).correct_placements = totalPositions p := by omega
    rw [hc]
    field_simp

/-- Witness for C4 at a concrete compliant check: one declared position,
one matching detection. -/
theorem C4_full_score_iff_no_issues_witness :
    ((check_compliance ⟨"P", [⟨0, [⟨0, "Coca-Cola", []⟩]⟩]⟩ [⟨"Coca-Cola", 0, 0, 1⟩]).compliance_score = 100
      ↔ (check_compliance ⟨"P", [⟨0, [⟨0, "Coca-Cola", []⟩]⟩]⟩ [⟨"Coca-Cola", 0, 0, 1⟩]).issues = []) :=
  C4_full_score_iff_no_issues ⟨"P", [⟨0, [⟨0, "Coca-Cola", []⟩]⟩]⟩ [⟨"Coca-Cola", 0, 0, 1⟩] (by decide)

/-- The base normalization described by the spec for the
ProductNameNormalizer: lowercase, trim, replace hyphen and underscore by a
space. -/
def specBaseNormalize (s : String) : String :=
  replaceChar (replaceChar (stripStr (lowerStr s)) '-' ' ') '_' ' '

/-- The coca-cola synonym set of the normalizer. -/
def cocaSynonyms : List String := ["coca cola", "coke", "coca-cola", "cocacola"]

/-- The empty-shelf synonym set of the normalizer. -/
def emptySynonyms : List String := ["empty shelf", "empty space", "empty", "emptyspace"]

/-- C7: the product name normalizer maps empty input to `"empty"`; a
nonempty string whose lowercased/trimmed/despaced form lies in the
coca-cola synonym set maps to `"coca cola"`, one in the empty synonym set
maps to `"empty"`, and any other nonempty string maps to its
lowercased/trimmed/despaced form. -/
theorem C7_normalizer_spec (name : String) :
    (name = "" → normalize_product_name name = "empty")
    ∧ (name ≠ "" → specBaseNormalize name ∈ cocaSynonyms →
        normalize_product_name name = "coca cola")
    ∧ (name ≠ "" → specBaseNormalize name ∈ emptySynonyms →
        normalize_product_name name = "empty")
    ∧ (name ≠ "" → specBaseNormalize name ∉ cocaSynonyms →
        specBaseNormalize name ∉ emptySynonyms →
        normalize_product_name name = specBaseNormalize name) := by
  have hbase : specBaseNormalize name =
      replaceChar (replaceChar (stripStr (lowerStr name)) '-' ' ') '_' ' ' := rfl
  refine ⟨?_, ?_, ?_, ?_⟩
  · intro h
    simp [normalize_product_name, h]
  · intro h han
    rw [hbase] at han
    simp only [normalize_product_name, if_neg h]
    rw [if_pos (by simpa [cocaSynonyms] using han)]
  · intro h hin
    have hnotc : specBaseNormalize name ∉ cocaSynonyms := by
      intro hc
      simp only [cocaSynonyms, emptySynonyms, List.mem_cons, List.mem_singleton,
        List.not_mem_nil, or_false] at hc hin
      rcases hc with hc | hc | hc | hc <;> rw [hc] at hin <;> simp at hin
    rw [hbase] at hin hnotc
    simp only [normalize_product_name, if_neg h]
    rw [if_neg (by simpa [cocaSynonyms] using hnotc),
      if_pos (by simpa [emptySynonyms] using hin)]
  · intro h hc he
    rw [hbase] at hc he
    simp only [normalize_product_name, if_neg h]
    rw [if_neg (by simpa [cocaSynonyms] using hc), if_neg (by simpa [emptySynonyms] using he),
      ← hbase]

/-- Witness for C7 at concrete inputs exercising all four clauses. -/
theorem C7_normalizer_spec_witness :
    normalize_product_name "" = "empty"
    ∧ normalize_product_name "Coca_Cola" = "coca cola"
    ∧ normalize_product_name " EMPTY SHELF " = "empty"
    ∧ normalize_product_name "Sprite" = "sprite" :=
  ⟨(C7_normalizer_spec "").1 rfl,
   (C7_normalizer_spec "Coca_Cola").2.1 (by decide) (by decide),
   (C7_normalizer_spec " EMPTY SHELF ").2.2.1 (by decide) (by decide),
   (C7_normalizer_spec "Sprite").2.2.2 (by decide) (by decide) (by decide)⟩

section UndeclaredDetection

lemma lookupGrid_cons (e : (Int × Int) × GridEntry) (g : List ((Int × Int) × GridEntry))
    (k : Int × Int) :
    lookupGrid (e :: g) k = if e.1 = k then some e.2 else lookupGrid g k := by
  by_cases h : e.1 = k
  · simp [lookupGrid, List.find?_cons_of_pos, h]
  · simp [lookupGrid, List.find?_cons_of_neg, h]

lemma lookup_updateGrid_ne (g : List ((Int × Int) × GridEntry)) (key k : Int × Int)
    (q : Int) (h : k ≠ key) :
    lookupGrid (updateGrid g key q) k = lookupGrid g k := by
  induction g with
  | nil => rfl
  | cons e es ih =>
    show lookupGrid ((if e.1 = key then (e.1, ⟨e.2.product, e.2.quantity + q⟩) else e)
      :: updateGrid es key q) k = _
    by_cases hek : e.1 = key
    · rw [if_pos hek, lookupGrid_cons, lookupGrid_cons,
        if_neg (by simpa [hek] using (Ne.symm h)), if_neg (by rw [hek]; exact Ne.symm h)]
      exact ih
    · rw [if_neg hek, lookupGrid_cons, lookupGrid_cons]
      by_cases hk : e.1 = k
      · rw [if_pos hk, if_pos hk]
      · rw [if_neg hk, if_neg hk]
        exact ih

/-- Adding one detection leaves the grid state unchanged at every other
cell. -/
lemma addDetection_preserves (st : GridState) (d : Detection) (k : Int × Int)
    (h : k ≠ (d.row, d.column)) :
    lookupGrid (addDetection st d).product_grid k = lookupGrid st.product_grid k
    ∧ ((k ∈ (addDetection st d).empty_spaces) ↔ k ∈ st.empty_spaces) := by
  unfold addDetection
  dsimp only
  split
  · exact ⟨rfl, by simp [List.mem_cons, h]⟩
  · split
    · exact ⟨lookup_updateGrid_ne _ _ _ _ h, Iff.rfl⟩
    · refine ⟨?_, Iff.rfl⟩
      rw [lookupGrid_cons]
      simp [Ne.symm h]

/-- The per-section classification depends on the grid state only through
the lookup and the empty-space membership at the section's own cell. -/
lemma processSection_state_congr (st1 st2 : GridState) (r : Int) (s : PlanogramSection)
    (hl : lookupGrid st1.product_grid (r, s.column) = lookupGrid st2.product_grid (r, s.column))
    (hm : ((r, s.column) ∈ st1.empty_spaces) ↔ ((r, s.column) ∈ st2.empty_spaces)) :
    processSection st1 r s = processSection st2 r s := by
  simp only [processSection]
  by_cases hk : (r, s.column) ∈ st1.empty_spaces
  · rw [if_pos hk, if_pos (hm.mp hk)]
  · rw [if_neg hk, if_neg (fun hx => hk (hm.mpr hx)), hl]

lemma v2Step_state_congr (st1 st2 : GridState) (r : Int) (acc : V2State)
    (s : PlanogramSection)
    (hl : lookupGrid st1.product_grid (r, s.column) = lookupGrid st2.product_grid (r, s.column))
    (hm : ((r, s.column) ∈ st1.empty_spaces) ↔ ((r, s.column) ∈ st2.empty_spaces)) :
    v2Step st1 r acc s = v2Step st2 r acc s := by
  simp only [v2Step]
  by_cases hk : (r, s.column) ∈ st1.empty_spaces
  · rw [if_pos hk, if_pos (hm.mp hk)]
  · rw [if_neg hk, if_neg (fun hx => hk (hm.mpr hx)), hl]

lemma sectionPairs_key (p : Planogram) (pr : Int × PlanogramSection)
    (hpr : pr ∈ sectionPairs p) :
    ∃ sh ∈ p.shelves, sh.row = pr.1 ∧ pr.2 ∈ sh.sections := by
  simp only [sectionPairs, List.mem_flatMap, List.mem_map] at hpr
  obtain ⟨sh, hsh, s, hs, heq⟩ := hpr
  refine ⟨sh, hsh, ?_, ?_⟩
  · rw [← heq]
  · rw [← heq]; exact hs

lemma foldl_congr_on {α β : Type} {f g : β → α → β} {l : List α}
    (h : ∀ b, ∀ a ∈ l, f b a = g b a) (b : β) : l.foldl f b = l.foldl g b := by
  induction l generalizing b with
  | nil => rfl
  | cons x xs ih =>
    rw [List.foldl_cons, List.foldl_cons, h b x (List.mem_cons_self x xs)]
    exact ih (fun b a ha => h b a (List.mem_cons_of_mem x ha)) _

end UndeclaredDetection

/-- C6: appending a detection whose cell is not declared as any
`(shelf.row, section.column)` in the planogram leaves the result of both
`check_compliance` variants unchanged — no new issue, same score, same
correct placements, same total. -/
theorem C6_undeclared_detection_ignored (p : Planogram) (dets : List Detection)
    (d : Detection)
    (h : ∀ sh ∈ p.shelves, ∀ sec ∈ sh.sections, (sh.row, sec.column) ≠ (d.row, d.column)) :
    check_compliance p (dets ++ [d]) = check_compliance p dets
    ∧ check_compliance_v2 p (dets ++ [d]) = check_compliance_v2 p dets := by
  have hbg : buildGrid (dets ++ [d]) = addDetection (buildGrid dets) d := by
    simp [buildGrid, List.foldl_append]
  have hkey : ∀ pr ∈ sectionPairs p, (pr.1, pr.2.column) ≠ (d.row, d.column) := by
    intro pr hpr
    obtain ⟨sh, hsh, hrow, hsec⟩ := sectionPairs_key p pr hpr
    rw [← hrow]
    exact h sh hsh pr.2 hsec
  have hps : ∀ pr ∈ sectionPairs p,
      processSection (buildGrid (dets ++ [d])) pr.1 pr.2
        = processSection (buildGrid dets) pr.1 pr.2 := by
    intro pr hpr
    rw [hbg]
    obtain ⟨hl, hm⟩ := addDetection_preserves (buildGrid dets) d (pr.1, pr.2.column)
      (hkey pr hpr)
    exact processSection_state_congr _ _ pr.1 pr.2 hl hm
  constructor
  · have hiss : (sectionPairs p).filterMap
        (fun pr => processSection (buildGrid (dets ++ [d])) pr.1 pr.2)
        = (sectionPairs p).filterMap
            (fun pr => processSection (buildGrid dets) pr.1 pr.2) :=
      List.filterMap_congr hps
    have hcor : (sectionPairs p).filter
        (fun pr => (processSection (buildGrid (dets ++ [d])) pr.1 pr.2).isNone)
        = (sectionPairs p).filter
            (fun pr => (processSection (buildGrid dets) pr.1 pr.2).isNone) :=
      List.filter_congr (fun pr hpr => by rw [hps pr hpr])
    simp only [check_compliance]
    rw [hiss, hcor]
  · have hloop : v2Loop p (dets ++ [d]) = v2Loop p dets := by
      unfold v2Loop
      rw [hbg]
      exact foldl_congr_on (fun acc pr hpr => by
        obtain ⟨hl, hm⟩ := addDetection_preserves (buildGrid dets) d (pr.1, pr.2.column)
          (hkey pr hpr)
        exact v2Step_state_congr _ _ pr.1 acc pr.2 hl hm) _
    simp only [check_compliance_v2]
    rw [hloop]

/-- Witness for C6: a detection at the undeclared cell `(5, 5)` changes
nothing about the one-section planogram's result. -/
theorem C6_undeclared_detection_ignored_witness :
    check_compliance ⟨"P", [⟨0, [⟨0, "Coca-Cola", []⟩]⟩]⟩
        ([⟨"Coca-Cola", 0, 0, 1⟩] ++ [⟨"Sprite", 5, 5, 1⟩])
      = check_compliance ⟨"P", [⟨0, [⟨0, "Coca-Cola", []⟩]⟩]⟩ [⟨"Coca-Cola", 0, 0, 1⟩]
    ∧ check_compliance_v2 ⟨"P", [⟨0, [⟨0, "Coca-Cola", []⟩]⟩]⟩
        ([⟨"Coca-Cola", 0, 0, 1⟩] ++ [⟨"Sprite", 5, 5, 1⟩])
      = check_compliance_v2 ⟨"P", [⟨0, [⟨0, "Coca-Cola", []⟩]⟩]⟩ [⟨"Coca-Cola", 0, 0, 1⟩] :=
  C6_undeclared_detection_ignored ⟨"P", [⟨0, [⟨0, "Coca-Cola", []⟩]⟩]⟩
    [⟨"Coca-Cola", 0, 0, 1⟩] ⟨"Sprite", 5, 5, 1⟩ (by decide)

/-- C3 (amended): in the `API For Image` variant, a declared position that
is not marked empty and has a detection is classified by comparing the
normalized detected name to the normalized expected product and to each
normalized allowed variant: any match counts the placement as correct
(and adds no issue), no match emits a `wrong_product` issue of severity
`high`.  Normalization is `_normalize_product_name`. -/
theorem C3_v2_normalized_comparison (st : GridState) (r : Int) (acc : V2State)
    (s : PlanogramSection) (d : GridEntry)
    (hne : (r, s.column) ∉ st.empty_spaces)
    (hd : lookupGrid st.product_grid (r, s.column) = some d) :
    ((normalize_product_name d.product = normalize_product_name s.expected_product
        ∨ ∃ v ∈ s.allowed_variants,
            normalize_product_name v = normalize_product_name d.product) →
      v2Step st r acc s =
        { issues := acc.issues
          correct_placements := acc.correct_placements + 1
          total_checked_positions := acc.total_checked_positions + 1
          total_positions := acc.total_positions + 1 })
    ∧ (¬ (normalize_product_name d.product = normalize_product_name s.expected_product
        ∨ ∃ v ∈ s.allowed_variants,
            normalize_product_name v = normalize_product_name d.product) →
      v2Step st r acc s =
        { issues := acc.issues ++ [⟨r, s.column, "wrong_product",
            "Shelf " ++ toString r ++ ": " ++ s.expected_product,
            "Found " ++ d.product ++ " where " ++ s.expected_product ++ " should be",
            "high"⟩]
          correct_placements := acc.correct_placements
          total_checked_positions := acc.total_checked_positions + 1
          total_positions := acc.total_positions + 1 }) := by
  have hmatch : v2ProductMatch d.product s = true ↔
      (normalize_product_name d.product = normalize_product_name s.expected_product
        ∨ ∃ v ∈ s.allowed_variants,
            normalize_product_name v = normalize_product_name d.product) := by
    simp [v2ProductMatch, List.any_eq_true]
  constructor
  · intro hm
    simp only [v2Step, if_neg hne, hd]
    rw [if_pos (hmatch.mpr hm)]
  · intro hm
    simp only [v2Step, if_neg hne, hd]
    rw [if_neg (fun hb => hm (hmatch.mp hb))]

/-- Witness for C3 (amended): a detection `coke` against expected
`Coca-Cola` matches after normalization and is counted correct. -/
theorem C3_v2_normalized_comparison_witness :
    v2Step ⟨[((0, 0), ⟨"coke", 1⟩)], []⟩ 0 ⟨[], 0, 0, 0⟩ ⟨0, "Coca-Cola", []⟩ =
      { issues := [], correct_placements := 1,
        total_checked_positions := 1, total_positions := 1 } :=
  (C3_v2_normalized_comparison ⟨[((0, 0), ⟨"coke", 1⟩)], []⟩ 0 ⟨[], 0, 0, 0⟩
    ⟨0, "Coca-Cola", []⟩ ⟨"coke", 1⟩ (by decide) (by decide)).1 (Or.inl (by decide))

/-- Counterexample for C3 as stated of the `image-recognition-api` variant:
there, the comparison is plain lowercase equality, not the
ProductNameNormalizer.  Detected `coke` normalizes identically to expected
`Coca-Cola`, yet that `check_compliance` reports `wrong_product` and no
correct placement. -/
theorem C3_counterexample :
    normalize_product_name "coke" = normalize_product_name "Coca-Cola"
    ∧ (check_compliance ⟨"P", [⟨0, [⟨0, "Coca-Cola", []⟩]⟩]⟩
        [⟨"coke", 0, 0, 1⟩]).issues.map (fun i => i.issue_type) = ["wrong_product"]
    ∧ (check_compliance ⟨"P", [⟨0, [⟨0, "Coca-Cola", []⟩]⟩]⟩
        [⟨"coke", 0, 0, 1⟩]).correct_placements = 0 := by
  refine ⟨by decide, by decide, by decide⟩

section CoordinateMapper

/-- The BoundarySet invariant of the spec for one axis: `n+1` strictly
increasing boundaries pinned to `0` and the image extent, with `n ≥ 1`. -/
def BoundaryInv (lines : List Int) (n : Nat) (size : Int) : Prop :=
  lines.length = n + 1 ∧ lines.Chain' (· < ·) ∧
    lines.head? = some 0 ∧ lines.getLast? = some size ∧ 1 ≤ n

lemma tail_getD (l : List Int) (i : Nat) (h : l ≠ []) :
    l.tail.getD i 0 = l.getD (i + 1) 0 := by
  cases l with
  | nil => exact absurd rfl h
  | cons a t => rfl

lemma firstLE_some_spec (c : Int) (l : List Int) (i : Nat)
    (h : firstLE c l = some i) :
    i < l.length ∧ c ≤ l.getD i 0 ∧ ∀ j, j < i → ¬ c ≤ l.getD j 0 := by
  induction l generalizing i with
  | nil => simp [firstLE] at h
  | cons b bs ih =>
    by_cases hcb : c ≤ b
    · rw [firstLE, if_pos hcb] at h
      obtain rfl : i = 0 := by simpa using h.symm
      exact ⟨by simp, hcb, by omega⟩
    · rw [firstLE, if_neg hcb] at h
      obtain ⟨i0, hi0, rfl⟩ := Option.map_eq_some'.mp h
      obtain ⟨h1, h2, h3⟩ := ih i0 hi0
      refine ⟨by simpa using h1, h2, ?_⟩
      intro j hj
      cases j with
      | zero => exact hcb
      | succ k => exact h3 k (by omega)

lemma firstLE_none_spec (c : Int) (l : List Int) (h : firstLE c l = none) :
    ∀ j, j < l.length → ¬ c ≤ l.getD j 0 := by
  induction l with
  | nil => simp
  | cons b bs ih =>
    by_cases hcb : c ≤ b
    · rw [firstLE, if_pos hcb] at h
      exact absurd h (by simp)
    · rw [firstLE, if_neg hcb] at h
      intro j hj
      cases j with
      | zero => exact hcb
      | succ k =>
        exact ih (Option.map_eq_none'.mp h) k (by simpa using hj)

/-- On a strictly increasing list ending in `size`, the first boundary
reaching `size` is the last one. -/
lemma firstLE_last (l : List Int) (size : Int)
    (hp : List.Pairwise (fun a b => a < b) l) (hlast : l.getLast? = some size)
    (hne : l ≠ []) :
    firstLE size l = some (l.length - 1) := by
  induction l with
  | nil => exact absurd rfl hne
  | cons b bs ih =>
    cases bs with
    | nil =>
      obtain rfl : b = size := by simpa using hlast
      simp [firstLE]
    | cons c2 cs =>
      have hlast2 : (c2 :: cs).getLast? = some size := by
        rw [← hlast]; rfl
      have hmem : size ∈ c2 :: cs := by
        have := List.getLast?_eq_getLast (c2 :: cs) (by simp)
        rw [this] at hlast2
        obtain rfl : (c2 :: cs).getLast (by simp) = size := by simpa using hlast2
        exact List.getLast_mem _
      have hbs : b < size := (List.pairwise_cons.mp hp).1 size hmem
      rw [firstLE, if_neg (by omega),
        ih (List.pairwise_cons.mp hp).2 hlast2 (by simp)]
      rfl

end CoordinateMapper

section CoordinateMapperSpec

/-- The one-axis computation inside `assign_coordinates`: first matching
boundary index, default to the last cell, then clamp. -/
def scanCell (lines : List Int) (n : Nat) (c : Int) : Nat :=
  min (n - 1) (match firstLE c lines.tail with | some i => i | none => n - 1)

lemma assign_coordinates_eq (h v : List Int) (nr nc : Nat) (cx cy : Int) :
    assign_coordinates h v nr nc cx cy = (scanCell h nr cy, scanCell v nc cx) := rfl

lemma BoundaryInv.ne_nil {lines : List Int} {n : Nat} {size : Int}
    (h : BoundaryInv lines n size) : lines ≠ [] := by
  intro hx
  obtain ⟨h1, _, _, _, hn⟩ := h
  rw [hx] at h1
  rw [List.length_nil] at h1
  omega

lemma BoundaryInv.tail_length {lines : List Int} {n : Nat} {size : Int}
    (h : BoundaryInv lines n size) : lines.tail.length = n := by
  have h1 := h.1
  cases lines with
  | nil => rw [List.length_nil] at h1; omega
  | cons a t => simpa using h1

lemma scanCell_lt {lines : List Int} {n : Nat} {size : Int}
    (h : BoundaryInv lines n size) (c : Int) : scanCell lines n c < n := by
  have hn := h.2.2.2.2
  exact lt_of_le_of_lt (Nat.min_le_left _ _) (by omega)

lemma scanCell_default {lines : List Int} {n : Nat} {size : Int}
    (h : BoundaryInv lines n size) (c : Int)
    (hall : ∀ j, j < n → ¬ c ≤ lines.getD (j + 1) 0) :
    scanCell lines n c = n - 1 := by
  unfold scanCell
  cases hf : firstLE c lines.tail with
  | none => exact Nat.min_self _
  | some i =>
    obtain ⟨h1, h2, _⟩ := firstLE_some_spec c lines.tail i hf
    rw [h.tail_length] at h1
    rw [tail_getD _ _ h.ne_nil] at h2
    exact absurd h2 (hall i h1)

lemma scanCell_least {lines : List Int} {n : Nat} {size : Int}
    (h : BoundaryInv lines n size) (c : Int) (i : Nat)
    (hi : i < n) (hc : c ≤ lines.getD (i + 1) 0)
    (hmin : ∀ j, j < i → ¬ c ≤ lines.getD (j + 1) 0) :
    scanCell lines n c = i := by
  unfold scanCell
  cases hf : firstLE c lines.tail with
  | none =>
    have := firstLE_none_spec c lines.tail hf i (by rw [h.tail_length]; exact hi)
    rw [tail_getD _ _ h.ne_nil] at this
    exact absurd hc this
  | some i2 =>
    obtain ⟨h1, h2, h3⟩ := firstLE_some_spec c lines.tail i2 hf
    rw [tail_getD _ _ h.ne_nil] at h2
    have hii : i2 = i := by
      rcases Nat.lt_trichotomy i2 i with hlt | heq | hgt
      · exact absurd h2 (hmin i2 hlt)
      · exact heq
      · have := h3 i hgt
        rw [tail_getD _ _ h.ne_nil] at this
        exact absurd hc this
    rw [hii]
    show min (n - 1) i = i
    omega

lemma scanCell_zero {lines : List Int} {n : Nat} {size : Int}
    (h : BoundaryInv lines n size) : scanCell lines n 0 = 0 := by
  obtain ⟨hlen, hch, hhead, hlast, hn⟩ := h
  refine scanCell_least ⟨hlen, hch, hhead, hlast, hn⟩ 0 0 (by omega) ?_ (by omega)
  cases lines with
  | nil => rw [List.length_nil] at hlen; omega
  | cons a t =>
    cases t with
    | nil => rw [List.length_singleton] at hlen; omega
    | cons b rest =>
      obtain rfl : a = 0 := by simpa using hhead
      have hab : (0 : Int) < b := (List.chain'_cons.mp hch).1
      simpa using le_of_lt hab

lemma scanCell_size {lines : List Int} {n : Nat} {size : Int}
    (h : BoundaryInv lines n size) : scanCell lines n size = n - 1 := by
  obtain ⟨hlen, hch, hhead, hlast, hn⟩ := h
  have hne : lines ≠ [] := BoundaryInv.ne_nil ⟨hlen, hch, hhead, hlast, hn⟩
  have htl : lines.tail.length = n :=
    BoundaryInv.tail_length ⟨hlen, hch, hhead, hlast, hn⟩
  have hp : List.Pairwise (fun a b => a < b) lines :=
    List.chain'_iff_pairwise.mp hch
  cases lines with
  | nil => exact absurd rfl hne
  | cons a t =>
    have htne : t ≠ [] := by
      intro hx
      rw [hx] at htl
      simp at htl
      omega
    have hlast2 : t.getLast? = some size := by
      rw [← hlast]
      cases t with
      | nil => exact absurd rfl htne
      | cons b rest => rfl
    have hpt : List.Pairwise (fun a b => a < b) t := (List.pairwise_cons.mp hp).2
    unfold scanCell
    rw [show (a :: t).tail = t from rfl, firstLE_last t size hpt hlast2 htne]
    simp only []
    rw [show t.length = n from by simpa using htl]
    exact Nat.min_self _

end CoordinateMapperSpec

/-- C5: under the BoundarySet invariant, `assign_coordinates` never raises
(it is a total function), returns the clamped smallest boundary index the
center does not exceed — with the last cell as default — and maps a center
at `(0,0)` to cell `(0,0)` and a center at `(width,height)` to
`(rows-1, cols-1)`, for arbitrary (also out-of-frame) centers. -/
theorem C5_coordinate_mapper (h_lines v_lines : List Int) (rows cols : Nat)
    (height width cx cy : Int)
    (hh : BoundaryInv h_lines rows height) (hv : BoundaryInv v_lines cols width) :
    ((assign_coordinates h_lines v_lines rows cols cx cy).1 < rows
      ∧ (assign_coordinates h_lines v_lines rows cols cx cy).2 < cols)
    ∧ ((∀ j, j < rows → ¬ cy ≤ h_lines.getD (j + 1) 0) →
        (assign_coordinates h_lines v_lines rows cols cx cy).1 = rows - 1)
    ∧ (∀ i, i < rows → cy ≤ h_lines.getD (i + 1) 0 →
        (∀ j, j < i → ¬ cy ≤ h_lines.getD (j + 1) 0) →
        (assign_coordinates h_lines v_lines rows cols cx cy).1 = i)
    ∧ ((∀ j, j < cols → ¬ cx ≤ v_lines.getD (j + 1) 0) →
        (assign_coordinates h_lines v_lines rows cols cx cy).2 = cols - 1)
    ∧ (∀ i, i < cols → cx ≤ v_lines.getD (i + 1) 0 →
        (∀ j, j < i → ¬ cx ≤ v_lines.getD (j + 1) 0) →
        (assign_coordinates h_lines v_lines rows cols cx cy).2 = i)
    ∧ (cx = 0 → cy = 0 → assign_coordinates h_lines v_lines rows cols cx cy = (0, 0))
    ∧ (cx = width → cy = height →
        assign_coordinates h_lines v_lines rows cols cx cy = (rows - 1, cols - 1)) := by
  rw [assign_coordinates_eq]
  refine ⟨⟨scanCell_lt hh cy, scanCell_lt hv cx⟩, ?_, ?_, ?_, ?_, ?_, ?_⟩
  · exact scanCell_default hh cy
  · exact fun i hi hc hm => scanCell_least hh cy i hi hc hm
  · exact scanCell_default hv cx
  · exact fun i hi hc hm => scanCell_least hv cx i hi hc hm
  · rintro rfl rfl
    rw [scanCell_zero hh, scanCell_zero hv]
  · rintro rfl rfl
    rw [scanCell_size hh, scanCell_size hv]

/-- Witness for C5 on a concrete 2x2 boundary set. -/
theorem C5_coordinate_mapper_witness :
    assign_coordinates [0, 100, 200] [0, 50, 100] 2 2 0 0 = (0, 0)
    ∧ assign_coordinates [0, 100, 200] [0, 50, 100] 2 2 100 200 = (2 - 1, 2 - 1) := by
  have hh : BoundaryInv [0, 100, 200] 2 200 := by
    refine ⟨rfl, ?_, rfl, rfl, by omega⟩
    norm_num [List.chain'_cons]
  have hv : BoundaryInv [0, 50, 100] 2 100 := by
    refine ⟨rfl, ?_, rfl, rfl, by omega⟩
    norm_num [List.chain'_cons]
  exact ⟨(C5_coordinate_mapper [0, 100, 200] [0, 50, 100] 2 2 200 100 0 0
      hh hv).2.2.2.2.2.1 rfl rfl,
    (C5_coordinate_mapper [0, 100, 200] [0, 50, 100] 2 2 200 100 100 200
      hh hv).2.2.2.2.2.2 rfl rfl⟩

section SortedSeparators

lemma insortND_mem (x a : Nat) (l : List Nat) :
    a ∈ insortND x l ↔ a = x ∨ a ∈ l := by
  induction l with
  | nil => simp [insortND]
  | cons y ys ih =>
    by_cases h1 : x < y
    · rw [insortND, if_pos h1]
      simp [List.mem_cons]
    · by_cases h2 : x = y
      · rw [insortND, if_neg h1, if_pos h2]
        subst h2
        simp only [List.mem_cons]
        tauto
      · rw [insortND, if_neg h1, if_neg h2]
        simp only [List.mem_cons, ih]
        tauto

lemma insortND_pairwise (x : Nat) (l : List Nat)
    (h : List.Pairwise (fun a b => a < b) l) :
    List.Pairwise (fun a b => a < b) (insortND x l) := by
  induction l with
  | nil => simp [insortND]
  | cons y ys ih =>
    obtain ⟨hy, hys⟩ := List.pairwise_cons.mp h
    by_cases h1 : x < y
    · rw [insortND, if_pos h1]
      refine List.pairwise_cons.mpr ⟨?_, h⟩
      intro a ha
      rcases List.mem_cons.mp ha with rfl | ha
      · exact h1
      · exact lt_trans h1 (hy a ha)
    · by_cases h2 : x = y
      · rw [insortND, if_neg h1, if_pos h2]
        exact h
      · rw [insortND, if_neg h1, if_neg h2]
        refine List.pairwise_cons.mpr ⟨?_, ih hys⟩
        intro a ha
        rcases (insortND_mem x a ys).mp ha with rfl | ha
        · omega
        · exact hy a ha

lemma dedupSort_pairwise (l : List Nat) :
    List.Pairwise (fun a b => a < b) (dedupSort l) := by
  induction l with
  | nil => simp [dedupSort]
  | cons x xs ih => exact insortND_pairwise x _ ih

lemma dedupSort_mem (l : List Nat) (a : Nat) : a ∈ dedupSort l ↔ a ∈ l := by
  induction l with
  | nil => simp [dedupSort]
  | cons x xs ih =>
    show a ∈ insortND x (dedupSort xs) ↔ _
    rw [insortND_mem, ih]
    simp [List.mem_cons]

/-- A strictly sorted list whose minimum is `m` has `m` at its head. -/
lemma sorted_head_eq (l : List Nat) (m : Nat)
    (hp : List.Pairwise (fun a b => a < b) l) (hm : m ∈ l)
    (hle : ∀ a ∈ l, m ≤ a) : l.head? = some m := by
  cases l with
  | nil => simp at hm
  | cons b bs =>
    have hb : m ≤ b := hle b (List.mem_cons_self b bs)
    rcases List.mem_cons.mp hm with rfl | hmem
    · rfl
    · have := (List.pairwise_cons.mp hp).1 m hmem
      omega

/-- A strictly sorted list whose maximum is `m` has `m` at its end. -/
lemma sorted_getLast_eq (l : List Nat) (m : Nat)
    (hp : List.Pairwise (fun a b => a < b) l) (hm : m ∈ l)
    (hge : ∀ a ∈ l, a ≤ m) : l.getLast? = some m := by
  induction l with
  | nil => simp at hm
  | cons b bs ih =>
    cases bs with
    | nil =>
      obtain rfl : m = b := by simpa using hm
      rfl
    | cons c cs =>
      have hmbs : m ∈ c :: cs := by
        rcases List.mem_cons.mp hm with rfl | hmem
        · have hc := (List.pairwise_cons.mp hp).1 c (List.mem_cons_self c cs)
          have := hge c (by simp)
          omega
        · exact hmem
      have := ih (List.pairwise_cons.mp hp).2 hmbs
        (fun a ha => hge a (List.mem_cons_of_mem b ha))
      rw [← this]
      rfl

lemma fclAux_chain (md : ℚ) (l : List Nat) : ∀ last : Nat,
    List.Chain' (fun a b : Nat => md ≤ (b : ℚ) - (a : ℚ)) (last :: fclAux md last l) := by
  induction l with
  | nil => intro last; simp [fclAux]
  | cons x xs ih =>
    intro last
    by_cases h : (x : ℚ) - (last : ℚ) ≥ md
    · rw [fclAux, if_pos h]
      exact List.chain'_cons.mpr ⟨h, ih x⟩
    · rw [fclAux, if_neg h]
      exact ih last

lemma fclAux_mem (md : ℚ) (l : List Nat) : ∀ last : Nat,
    ∀ a ∈ fclAux md last l, a ∈ l := by
  induction l with
  | nil => intro last a ha; simp [fclAux] at ha
  | cons x xs ih =>
    intro last a ha
    by_cases h : (x : ℚ) - (last : ℚ) ≥ md
    · rw [fclAux, if_pos h] at ha
      rcases List.mem_cons.mp ha with rfl | ha
      · exact List.mem_cons_self a xs
      · exact List.mem_cons_of_mem x (ih x a ha)
    · rw [fclAux, if_neg h] at ha
      exact List.mem_cons_of_mem x (ih last a ha)

lemma filter_close_lines_mem (l : List Nat) (md : ℚ) :
    ∀ a ∈ filter_close_lines l md, a ∈ l := by
  intro a ha
  cases l with
  | nil => simp [filter_close_lines] at ha
  | cons x xs =>
    rw [filter_close_lines] at ha
    rcases List.mem_cons.mp ha with rfl | ha
    · exact List.mem_cons_self a xs
    · have := fclAux_mem _ _ _ a ha
      have := List.mem_of_mem_tail this
      exact (dedupSort_mem (x :: xs) a).mp this

end SortedSeparators

/-- The head of a strictly sorted list is a lower bound for it. -/
lemma sorted_head_min (b : Nat) (bs : List Nat)
    (hp : List.Pairwise (fun a c => a < c) (b :: bs)) :
    ∀ a ∈ b :: bs, b ≤ a := by
  intro a ha
  rcases List.mem_cons.mp ha with rfl | ha
  · exact le_refl a
  · exact le_of_lt ((List.pairwise_cons.mp hp).1 a ha)

/-- C8 (amended): with a positive minimum spacing, the `/detect-grid`
pipeline in `main.py` — deduplicate and sort, then greedily keep the first
of each cluster — keeps the smallest candidate, outputs a subset of the
input, and the kept lines are strictly increasing with consecutive gaps of
at least the minimum spacing.  The `image.py`/`image_service.py` variant of
`filter_close_lines` also produces strictly increasing output with gaps of
at least the spacing, but it seeds the scan with the list's first element
as given (only the remainder is sorted), so it need not keep the smallest
candidate of an unsorted list. -/
theorem C8_close_line_filter (l : List Nat) (md : ℚ) (hmd : 0 < md) (hne : l ≠ []) :
    (∃ m, (dedupSortThenFilter l md).head? = some m ∧ m ∈ l ∧ ∀ a ∈ l, m ≤ a)
    ∧ (dedupSortThenFilter l md).Chain'
        (fun a b : Nat => a < b ∧ md ≤ (b : ℚ) - (a : ℚ))
    ∧ (∀ a ∈ dedupSortThenFilter l md, a ∈ l)
    ∧ (filter_close_lines l md).Chain'
        (fun a b : Nat => a < b ∧ md ≤ (b : ℚ) - (a : ℚ)) := by
  have hgap : ∀ (xs : List Nat) (last : Nat),
      List.Chain' (fun a b : Nat => a < b ∧ md ≤ (b : ℚ) - (a : ℚ))
        (last :: fclAux md last xs) := by
    intro xs last
    refine List.Chain'.imp ?_ (fclAux_chain md xs last)
    intro a b hab
    refine ⟨?_, hab⟩
    have : (a : ℚ) < (b : ℚ) := by linarith
    exact_mod_cast this
  have hds : dedupSort l ≠ [] := by
    cases l with
    | nil => exact absurd rfl hne
    | cons x xs =>
      intro hempty
      have : x ∈ dedupSort (x :: xs) := (dedupSort_mem _ x).mpr (by simp)
      rw [hempty] at this
      simp at this
  obtain ⟨b, bs, hbbs⟩ := List.exists_cons_of_ne_nil hds
  have hpair := dedupSort_pairwise l
  rw [hbbs] at hpair
  refine ⟨⟨b, ?_, ?_, ?_⟩, ?_, ?_, ?_⟩
  · rw [dedupSortThenFilter, hbbs]
    rfl
  · exact (dedupSort_mem l b).mp (by rw [hbbs]; simp)
  · intro a ha
    exact sorted_head_min b bs hpair a (by rw [← hbbs]; exact (dedupSort_mem l a).mpr ha)
  · rw [dedupSortThenFilter, hbbs]
    exact hgap bs b
  · intro a ha
    rw [dedupSortThenFilter, hbbs] at ha
    rw [filter_close_lines_presorted] at ha
    rcases List.mem_cons.mp ha with rfl | ha
    · exact (dedupSort_mem l a).mp (by rw [hbbs]; simp)
    · have := fclAux_mem md bs b a ha
      have : a ∈ dedupSort l := by rw [hbbs]; exact List.mem_cons_of_mem b this
      exact (dedupSort_mem l a).mp this
  · cases l with
    | nil => exact absurd rfl hne
    | cons x xs =>
      rw [filter_close_lines]
      exact hgap _ x

/-- Witness for C8 on a concrete unsorted candidate list. -/
theorem C8_close_line_filter_witness :
    (∃ m, (dedupSortThenFilter [30, 10, 100] 50).head? = some m
      ∧ m ∈ [30, 10, 100] ∧ ∀ a ∈ [30, 10, 100], m ≤ a)
    ∧ (dedupSortThenFilter [30, 10, 100] 50).Chain'
        (fun a b : Nat => a < b ∧ (50 : ℚ) ≤ (b : ℚ) - (a : ℚ))
    ∧ (∀ a ∈ dedupSortThenFilter [30, 10, 100] 50, a ∈ [30, 10, 100])
    ∧ (filter_close_lines [30, 10, 100] 50).Chain'
        (fun a b : Nat => a < b ∧ (50 : ℚ) ≤ (b : ℚ) - (a : ℚ)) :=
  C8_close_line_filter [30, 10, 100] 50 (by norm_num) (by simp)

/-- Counterexample for C8 as stated: the `filter_close_lines` of
`image.py` does not deduplicate-and-sort before keeping cluster heads — on
the unsorted candidate list `[100, 0]` with minimum spacing `50` it keeps
`100` and drops the smallest candidate `0`, whereas the claimed
behaviour (dedupe, sort, keep first of each cluster) keeps `[0, 100]`. -/
theorem C8_counterexample :
    filter_close_lines [100, 0] 50 = [100]
    ∧ (0 : Nat) ∈ [100, 0]
    ∧ (0 : Nat) ∉ filter_close_lines [100, 0] 50
    ∧ dedupSortThenFilter [100, 0] 50 = [0, 100] := by
  have h : filter_close_lines [100, 0] 50 = [100] := by
    norm_num [filter_close_lines, fclAux, dedupSort, insortND]
  refine ⟨h, by decide, by rw [h]; decide, ?_⟩
  norm_num [dedupSortThenFilter, filter_close_lines_presorted, fclAux, dedupSort, insortND]

/-- Case analysis of `detect_dynamic_grid`: either it raises the count
validation error, or it returns the assembled grid, which then satisfies
the (negated) count condition. -/
lemma detect_dynamic_grid_cases (width height : Nat) (ss ps : List Nat) :
    detect_dynamic_grid width height ss ps = Except.error "Grid detection failed validation"
    ∨ ∃ r c hl vl, detect_dynamic_grid width height ss ps = Except.ok (r, c, hl, vl)
        ∧ r = hl.length - 1 ∧ c = vl.length - 1
        ∧ ¬(r > 6 ∨ c > 8 ∨ r < 1 ∨ c < 1 ∨ (r = 1 ∧ c ≤ 2) ∨ (c = 1 ∧ r ≤ 2))
        ∧ hl = dedupSort (0 :: (filter_close_lines ss ((height : ℚ) * 15 / 100) ++ [height]))
        ∧ vl = dedupSort (0 :: (filter_close_lines ps ((width : ℚ) * 8 / 100) ++ [width])) := by
  simp only [detect_dynamic_grid]
  split
  · exact Or.inl rfl
  · next hcond => exact Or.inr ⟨_, _, _, _, rfl, rfl, rfl, hcond, rfl, rfl⟩

/-- C9 (amended): the primary grid-detection path rejects (raises) exactly
through the row/column-count validation: `rows > 6`, `cols > 8`,
`rows < 1`, `cols < 1`, or the degenerate `1 x (<=2)` / `(<=2) x 1` grids.
There is no average-cell-size check: an accepted grid is constrained only
by those count bounds. -/
theorem C9_only_count_validation (width height : Nat) (ss ps : List Nat) :
    (∀ e, detect_dynamic_grid width height ss ps = Except.error e →
      e = "Grid detection failed validation")
    ∧ (∀ r c hl vl, detect_dynamic_grid width height ss ps = Except.ok (r, c, hl, vl) →
        1 ≤ r ∧ r ≤ 6 ∧ 1 ≤ c ∧ c ≤ 8 ∧ ¬(r = 1 ∧ c ≤ 2) ∧ ¬(c = 1 ∧ r ≤ 2)) := by
  rcases detect_dynamic_grid_cases width height ss ps with
    hcase | ⟨r0, c0, hl0, vl0, heq, hr, hc, hcond, hhl, hvl⟩
  · refine ⟨fun e he => ?_, fun r c hl vl hok => ?_⟩
    · rw [hcase] at he
      simpa using he.symm
    · rw [hcase] at hok
      exact absurd hok (by simp)
  · refine ⟨fun e he => ?_, fun r c hl vl hok => ?_⟩
    · rw [heq] at he
      exact absurd he (by simp)
    · rw [heq] at hok
      simp only [Except.ok.injEq, Prod.mk.injEq] at hok
      obtain ⟨h1, h2, -, -⟩ := hok
      omega

/-- Witness for C9 on the concrete accepted 1x3 grid. -/
theorem C9_only_count_validation_witness :
    1 ≤ 1 ∧ 1 ≤ 6 ∧ 1 ≤ 3 ∧ 3 ≤ 8 ∧ ¬((1 : Nat) = 1 ∧ (3 : Nat) ≤ 2)
      ∧ ¬((3 : Nat) = 1 ∧ (1 : Nat) ≤ 2) :=
  (C9_only_count_validation 600 600 [] [200, 400]).2 1 3 [0, 600] [0, 200, 400, 600]
    (by norm_num [detect_dynamic_grid, filter_close_lines, fclAux, dedupSort, insortND])

/-- Counterexample for C9 as stated: `detect_dynamic_grid` ACCEPTS the
grid assembled from no horizontal separators on a 600x600 image — one row
of average cell height `600/1 = 600`, strictly greater than
`0.8 * 600 = 480` — so no rejection on average cell height exists. -/
theorem C9_counterexample :
    detect_dynamic_grid 600 600 [] [200, 400]
      = Except.ok (1, 3, [0, 600], [0, 200, 400, 600])
    ∧ ¬ ((600 : ℚ) / 1 ≤ (8 / 10) * 600) := by
  constructor
  · norm_num [detect_dynamic_grid, filter_close_lines, fclAux, dedupSort, insortND]
  · norm_num

section FallbackGrid

/-- The evenly spaced fallback boundaries `int(i * size / n)` are strictly
increasing from `0` to `size` whenever the image extent is at least the
number of cells. -/
lemma evenly_spaced (n size : Nat) (hn : 1 ≤ n) (hsize : n ≤ size) :
    ((List.range (n + 1)).map (fun i => i * size / n)).Chain' (fun a b : Nat => a < b)
    ∧ ((List.range (n + 1)).map (fun i => i * size / n)).head? = some 0
    ∧ ((List.range (n + 1)).map (fun i => i * size / n)).getLast? = some size
    ∧ ((List.range (n + 1)).map (fun i => i * size / n)).length = n + 1 := by
  have hn0 : 0 < n := by omega
  refine ⟨?_, ?_, ?_, by simp⟩
  · rw [List.chain'_map, List.chain'_range_succ]
    intro m hm
    have h1 : (m + 1) * size = m * size + size := by ring
    rw [h1]
    calc m * size / n < m * size / n + 1 := by omega
      _ = (m * size + n) / n := (Nat.add_div_right _ hn0).symm
      _ ≤ (m * size + size) / n := Nat.div_le_div_right (by omega)
  · rw [List.range_succ_eq_map]
    simp
  · rw [List.range_succ, List.map_append]
    simp only [List.map_cons, List.map_nil, List.getLast?_concat]
    rw [Nat.mul_div_cancel_left size hn0]

lemma fallback_dims_bounds (width height : Nat) :
    1 ≤ (fallback_dims width height).1 ∧ (fallback_dims width height).1 ≤ 4
    ∧ 2 ≤ (fallback_dims width height).2 ∧ (fallback_dims width height).2 ≤ 6 := by
  unfold fallback_dims
  split_ifs <;> dsimp only <;> omega

end FallbackGrid

/-- C2 (amended): for every image at least 6 pixels wide and 4 pixels tall
and separator candidates inside the frame, grid inference (the structural
path with the aspect-ratio fallback) is total and returns
`rows >= 1`, `cols >= 1` and strictly increasing boundary lists of lengths
`rows+1`/`cols+1` running from `0` to the image height and width.  (For
degenerate tiny images the fallback's evenly spaced boundaries collapse;
see the counterexample.) -/
theorem C2_grid_inference (width height : Nat) (ss ps : List Nat)
    (hw : 6 ≤ width) (hh : 4 ≤ height)
    (hss : ∀ s ∈ ss, s ≤ height) (hps : ∀ s ∈ ps, s ≤ width) :
    ∀ nr nc hl vl, detect_shelf_layout width height ss ps = (nr, nc, hl, vl) →
      1 ≤ nr ∧ 1 ≤ nc
      ∧ hl.Chain' (fun a b : Nat => a < b) ∧ vl.Chain' (fun a b : Nat => a < b)
      ∧ hl.head? = some 0 ∧ hl.getLast? = some height
      ∧ vl.head? = some 0 ∧ vl.getLast? = some width
      ∧ hl.length = nr + 1 ∧ vl.length = nc + 1 := by
  intro nr nc hl vl hres
  unfold detect_shelf_layout at hres
  rcases detect_dynamic_grid_cases width height ss ps with
    herr | ⟨r0, c0, hl0, vl0, heq, hr, hc, hcond, hhl, hvl⟩
  · -- fallback branch
    rw [herr] at hres
    simp only [Prod.mk.injEq] at hres
    obtain ⟨hnr, hnc, hhl2, hvl2⟩ := hres
    obtain ⟨hb1, hb2, hb3, hb4⟩ := fallback_dims_bounds width height
    have hrow := evenly_spaced (fallback_dims width height).1 height hb1 (by omega)
    have hcol := evenly_spaced (fallback_dims width height).2 width (by omega) (by omega)
    subst hnr hnc hhl2 hvl2
    exact ⟨hb1, by omega, hrow.1, hcol.1, hrow.2.1, hrow.2.2.1,
      hcol.2.1, hcol.2.2.1, hrow.2.2.2, hcol.2.2.2⟩
  · -- structural branch
    rw [heq] at hres
    simp only [Prod.mk.injEq] at hres
    obtain ⟨hnr, hnc, hhl2, hvl2⟩ := hres
    rw [← hnr, ← hnc, ← hhl2, ← hvl2]
    have hpl := dedupSort_pairwise
      (0 :: (filter_close_lines ss ((height : ℚ) * 15 / 100) ++ [height]))
    have hpv := dedupSort_pairwise
      (0 :: (filter_close_lines ps ((width : ℚ) * 8 / 100) ++ [width]))
    rw [← hhl] at hpl
    rw [← hvl] at hpv
    have hmem0l : (0 : Nat) ∈ hl0 := by
      rw [hhl, dedupSort_mem]; simp
    have hmemhl : height ∈ hl0 := by
      rw [hhl, dedupSort_mem]; simp
    have hboundl : ∀ a ∈ hl0, a ≤ height := by
      intro a ha
      rw [hhl, dedupSort_mem] at ha
      rcases List.mem_cons.mp ha with rfl | ha
      · omega
      · rcases List.mem_append.mp ha with ha | ha
        · exact hss a (filter_close_lines_mem ss _ a ha)
        · simp at ha; omega
    have hmem0v : (0 : Nat) ∈ vl0 := by
      rw [hvl, dedupSort_mem]; simp
    have hmemwv : width ∈ vl0 := by
      rw [hvl, dedupSort_mem]; simp
    have hboundv : ∀ a ∈ vl0, a ≤ width := by
      intro a ha
      rw [hvl, dedupSort_mem] at ha
      rcases List.mem_cons.mp ha with rfl | ha
      · omega
      · rcases List.mem_append.mp ha with ha | ha
        · exact hps a (filter_close_lines_mem ps _ a ha)
        · simp at ha; omega
    have hlenl : 1 ≤ hl0.length := List.length_pos.mpr (List.ne_nil_of_mem hmem0l)
    have hlenv : 1 ≤ vl0.length := List.length_pos.mpr (List.ne_nil_of_mem hmem0v)
    refine ⟨by omega, by omega,
      List.chain'_iff_pairwise.mpr hpl, List.chain'_iff_pairwise.mpr hpv,
      sorted_head_eq hl0 0 hpl hmem0l (fun a _ => Nat.zero_le a),
      sorted_getLast_eq hl0 height hpl hmemhl hboundl,
      sorted_head_eq vl0 0 hpv hmem0v (fun a _ => Nat.zero_le a),
      sorted_getLast_eq vl0 width hpv hmemwv hboundv,
      by omega, by omega⟩

/-- Witness for C2 on the 1200x300 very-wide image with no usable edge
structure (the fallback's 1x6 grid). -/
theorem C2_grid_inference_witness :
    1 ≤ 1 ∧ 1 ≤ 6
    ∧ List.Chain' (fun a b : Nat => a < b) [0, 300]
    ∧ List.Chain' (fun a b : Nat => a < b) [0, 200, 400, 600, 800, 1000, 1200]
    ∧ ([0, 300] : List Nat).head? = some 0
    ∧ ([0, 300] : List Nat).getLast? = some 300
    ∧ ([0, 200, 400, 600, 800, 1000, 1200] : List Nat).head? = some 0
    ∧ ([0, 200, 400, 600, 800, 1000, 1200] : List Nat).getLast? = some 1200
    ∧ ([0, 300] : List Nat).length = 1 + 1
    ∧ ([0, 200, 400, 600, 800, 1000, 1200] : List Nat).length = 6 + 1 :=
  C2_grid_inference 1200 300 [] [] (by omega) (by omega) (by simp) (by simp)
    1 6 [0, 300] [0, 200, 400, 600, 800, 1000, 1200] (by decide)

/-- Counterexample for C2 as stated: on the positive-size 1x1 image the
fallback produces `h_lines = [0, 0, 0, 1]`, which is not strictly
increasing (and has duplicated boundaries). -/
theorem C2_counterexample :
    (detect_shelf_layout 1 1 [] []).2.2.1 = [0, 0, 0, 1]
    ∧ ¬ ((detect_shelf_layout 1 1 [] []).2.2.1.Chain' (fun a b : Nat => a < b)) := by
  have h : detect_shelf_layout 1 1 [] [] = (3, 2, [0, 0, 0, 1], [0, 0, 1]) := by decide
  refine ⟨by rw [h], ?_⟩
  rw [h]
  simp [List.chain'_cons]
